import Mathlib

/-!
Verification development for the DevOps Intelligence Agent repository.

Shallow embedding of the plan/execute/approve orchestration core:
  * a JSON value type modelling Python's decoded `json` values,
  * Python string primitives (`find`, `rfind`, slicing, `strip`) used by
    `ReasoningEngine._parse_reasoning_output`,
  * an executable model of `json.loads` (recursive-descent parser),
  * the reasoning engine (`reasoning.py`),
  * the orchestrator (`bedrock_agent.py`): `_execute_plan`,
    `_store_pending_action`, `approve_action`, `_generate_response`,
    `process_message`,
  * the two conversation stores (`memory_store.py`, `dynamodb.py`).

Modelling conventions: timestamps are drawn from a `Nat` clock threaded
through the state (the code uses `datetime.utcnow()`, assumed monotone);
external network calls (the Bedrock model, the tools' AWS calls) are
oracles passed in as parameters; a Python exception is an `Except.error`.
-/

namespace DevOpsAgent

/-- Model of a decoded Python JSON value (result of `json.loads`).
`numI` holds integer literals; `numF` keeps the raw text of a
fractional/exponent literal (no claim depends on float arithmetic). -/
inductive Json where
  | null : Json
  | bool : Bool → Json
  | numI : Int → Json
  | numF : String → Json
  | str : String → Json
  | arr : List Json → Json
  | obj : List (String × Json) → Json
deriving Repr, Inhabited

/-- First binding of a key in an association list (Python dict lookup;
keys are unique because the parser replaces duplicates). -/
def lookupKV : List (String × Json) → String → Option Json
  | [], _ => none
  | (k, v) :: rest, key => if k == key then some v else lookupKV rest key

/-- Python `dict.get(key)` on an object; `none` on non-objects
models the `AttributeError` a `.get` on a non-dict would raise. -/
def Json.get : Json → String → Option Json
  | Json.obj kvs, key => lookupKV kvs key
  | _, _ => none

/-- Insert a key/value pair, replacing an existing binding of the same key
(Python dict semantics: on duplicate keys `json.loads` keeps the last). -/
def insertKV : List (String × Json) → String → Json → List (String × Json)
  | [], k, v => [(k, v)]
  | (k0, v0) :: rest, k, v =>
      if k0 == k then (k0, v) :: rest else (k0, v0) :: insertKV rest k v

/-! ### Python string primitives -/

/-- `needle` is a prefix of `hay` (character lists). -/
def strStarts : List Char → List Char → Bool
  | [], _ => true
  | _ :: _, [] => false
  | a :: as, b :: bs => a == b && strStarts as bs

/-- Index of the first occurrence of `sub` in `hay`, if any. -/
def findSub : List Char → List Char → Option Nat
  | hay, sub =>
      if strStarts sub hay then some 0
      else match hay with
        | [] => none
        | _ :: t => (findSub t sub).map (· + 1)

/-- Python `s.find(sub)`: first index, `-1` when absent. -/
def pyFind (s sub : String) : Int :=
  match findSub s.toList sub.toList with
  | some i => (i : Int)
  | none => -1

/-- Python `s.find(sub, start)` with a non-negative start index. -/
def pyFindFrom (s sub : String) (start : Nat) : Int :=
  match findSub (s.toList.drop start) sub.toList with
  | some i => ((start + i : Nat) : Int)
  | none => -1

/-- Python `s.rfind(sub)`: last index, `-1` when absent. -/
def pyRFind (s sub : String) : Int :=
  match findSub s.toList.reverse sub.toList.reverse with
  | some i => ((s.toList.length - sub.toList.length - i : Nat) : Int)
  | none => -1

/-- Python `sub in s`. -/
def pyContains (s sub : String) : Bool :=
  pyFind s sub != -1

/-- Python slice `l[a:b]` with negative-index and clamping semantics. -/
def pySliceList {α : Type} (l : List α) (a b : Int) : List α :=
  let n : Int := (l.length : Int)
  let lo : Nat := (if a < 0 then max (n + a) 0 else min a n).toNat
  let hi : Nat := (if b < 0 then max (n + b) 0 else min b n).toNat
  (l.take hi).drop lo

/-- Python slice `s[a:b]` on strings. -/
def pySlice (s : String) (a b : Int) : String :=
  String.mk (pySliceList s.toList a b)

/-- Python slice `l[a:]` (start only). -/
def pySliceFrom {α : Type} (l : List α) (a : Int) : List α :=
  let n : Int := (l.length : Int)
  let lo : Nat := (if a < 0 then max (n + a) 0 else min a n).toNat
  l.drop lo

/-- Whitespace recognised by Python `str.strip()` (ASCII part). -/
def isPyWs (c : Char) : Bool :=
  c == ' ' || c == '\t' || c == '\n' || c == '\r' ||
  c == Char.ofNat 11 || c == Char.ofNat 12

/-- Python `s.strip()`. -/
def pyStrip (s : String) : String :=
  String.mk (((s.toList.dropWhile isPyWs).reverse.dropWhile isPyWs).reverse)

/-! ### Model of `json.loads` (Python's strict JSON decoder) -/

/-- Whitespace accepted between JSON tokens. -/
def isJWs (c : Char) : Bool :=
  c == ' ' || c == '\t' || c == '\n' || c == '\r'

/-- Skip inter-token whitespace. -/
def skipJWs (cs : List Char) : List Char := cs.dropWhile isJWs

/-- Value of one hex digit. -/
def hexVal (c : Char) : Option Nat :=
  if 48 ≤ c.toNat && c.toNat ≤ 57 then some (c.toNat - 48)
  else if 97 ≤ c.toNat && c.toNat ≤ 102 then some (c.toNat - 87)
  else if 65 ≤ c.toNat && c.toNat ≤ 70 then some (c.toNat - 55)
  else none

/-- Parse the body of a JSON string literal (opening quote already
consumed), honouring the escape sequences `json.loads` accepts and
rejecting raw control characters. The fuel argument only bounds
recursion depth; callers pass `length + 1`, which each-step consumption
of at least one character makes sufficient. -/
def parseStringLit : Nat → List Char → Option (List Char × List Char)
  | 0, _ => none
  | _ + 1, [] => none
  | fuel + 1, c :: rest =>
    if c == '"' then some ([], rest)
    else if c == '\\' then
      match rest with
      | [] => none
      | e :: rest2 =>
        if e == '"' then (parseStringLit fuel rest2).map (fun p => ('"' :: p.1, p.2))
        else if e == '\\' then (parseStringLit fuel rest2).map (fun p => ('\\' :: p.1, p.2))
        else if e == '/' then (parseStringLit fuel rest2).map (fun p => ('/' :: p.1, p.2))
        else if e == 'b' then (parseStringLit fuel rest2).map (fun p => (Char.ofNat 8 :: p.1, p.2))
        else if e == 'f' then (parseStringLit fuel rest2).map (fun p => (Char.ofNat 12 :: p.1, p.2))
        else if e == 'n' then (parseStringLit fuel rest2).map (fun p => ('\n' :: p.1, p.2))
        else if e == 'r' then (parseStringLit fuel rest2).map (fun p => ('\r' :: p.1, p.2))
        else if e == 't' then (parseStringLit fuel rest2).map (fun p => ('\t' :: p.1, p.2))
        else if e == 'u' then
          match rest2 with
          | h1 :: h2 :: h3 :: h4 :: rest3 =>
            match hexVal h1, hexVal h2, hexVal h3, hexVal h4 with
            | some a, some b, some c2, some d =>
                (parseStringLit fuel rest3).map
                  (fun p => (Char.ofNat (((a * 16 + b) * 16 + c2) * 16 + d) :: p.1, p.2))
            | _, _, _, _ => none
          | _ => none
        else none
    else if c.toNat < 32 then none
    else (parseStringLit fuel rest).map (fun p => (c :: p.1, p.2))

/-- ASCII digit test. -/
def isDigit (c : Char) : Bool := 48 ≤ c.toNat && c.toNat ≤ 57

/-- Numeric value of a digit string. -/
def digitsToNat (ds : List Char) : Nat :=
  ds.foldl (fun acc c => acc * 10 + (c.toNat - 48)) 0

/-- Parse a JSON number literal. Integer literals become `Json.numI`;
literals with a fraction or exponent keep their raw text as `Json.numF`
(Python would produce a float; no claim depends on float values). -/
def parseNumber (cs : List Char) : Option (Json × List Char) :=
  let (sign, cs1) : Int × List Char :=
    match cs with
    | '-' :: t => (-1, t)
    | _ => (1, cs)
  let ds := cs1.takeWhile isDigit
  let cs2 := cs1.dropWhile isDigit
  if ds.isEmpty then none
  else if ds.length > 1 && ds.headD ' ' == '0' then none
  else
    let (fracChars, cs3) : List Char × List Char :=
      match cs2 with
      | '.' :: t =>
          let fd := t.takeWhile isDigit
          if fd.isEmpty then ([], cs2) else ('.' :: fd, t.dropWhile isDigit)
      | _ => ([], cs2)
    let (expChars, cs4) : List Char × List Char :=
      match cs3 with
      | e :: t =>
          if e == 'e' || e == 'E' then
            let (sgn, t2) : List Char × List Char :=
              match t with
              | s :: t2 => if s == '+' || s == '-' then ([s], t2) else ([], t)
              | [] => ([], t)
            let ed := t2.takeWhile isDigit
            if ed.isEmpty then ([], cs3) else (e :: (sgn ++ ed), t2.dropWhile isDigit)
          else ([], cs3)
      | [] => ([], cs3)
    if fracChars.isEmpty && expChars.isEmpty then
      some (Json.numI (sign * (digitsToNat ds : Int)), cs2)
    else
      let raw := (if sign == -1 then ['-'] else []) ++ ds ++ fracChars ++ expChars
      some (Json.numF (String.mk raw), cs4)

/-- Left fold of parsed object members into a dict: later duplicate keys
overwrite earlier values in place (Python dict behaviour). -/
def dedupKV (ps : List (String × Json)) : List (String × Json) :=
  ps.foldl (fun acc p => insertKV acc p.1 p.2) []

mutual

/-- Parse one JSON value. Fuel bounds recursion depth; `jsonLoads`
supplies more fuel than any input of its length can consume. -/
def parseVal : Nat → List Char → Option (Json × List Char)
  | 0, _ => none
  | fuel + 1, cs0 =>
    let cs := skipJWs cs0
    match cs with
    | [] => none
    | c :: rest =>
      if c == '"' then
        (parseStringLit (rest.length + 1) rest).map (fun p => (Json.str (String.mk p.1), p.2))
      else if c == '[' then
        match skipJWs rest with
        | ']' :: rest2 => some (Json.arr [], rest2)
        | cs2 => (parseElems fuel cs2).map (fun p => (Json.arr p.1, p.2))
      else if c == '\x7b' then
        match skipJWs rest with
        | [] => none
        | c2 :: rest2 =>
          if c2 == '\x7d' then some (Json.obj [], rest2)
          else (parseMembers fuel (c2 :: rest2)).map (fun p => (Json.obj (dedupKV p.1), p.2))
      else if strStarts ['n', 'u', 'l', 'l'] cs then some (Json.null, cs.drop 4)
      else if strStarts ['t', 'r', 'u', 'e'] cs then some (Json.bool true, cs.drop 4)
      else if strStarts ['f', 'a', 'l', 's', 'e'] cs then some (Json.bool false, cs.drop 5)
      else parseNumber cs

/-- Parse the elements of a non-empty array (opening bracket consumed). -/
def parseElems : Nat → List Char → Option (List Json × List Char)
  | 0, _ => none
  | fuel + 1, cs =>
    match parseVal fuel cs with
    | none => none
    | some (v, rest) =>
      match skipJWs rest with
      | ',' :: rest2 => (parseElems fuel rest2).map (fun p => (v :: p.1, p.2))
      | ']' :: rest2 => some ([v], rest2)
      | _ => none

/-- Parse the members of a non-empty object (opening brace consumed). -/
def parseMembers : Nat → List Char → Option (List (String × Json) × List Char)
  | 0, _ => none
  | fuel + 1, cs =>
    match skipJWs cs with
    | [] => none
    | c :: rest =>
      if c == '"' then
        match parseStringLit (rest.length + 1) rest with
        | none => none
        | some (kChars, rest2) =>
          match skipJWs rest2 with
          | ':' :: rest3 =>
            match parseVal fuel rest3 with
            | none => none
            | some (v, rest4) =>
              match skipJWs rest4 with
              | ',' :: rest5 =>
                  (parseMembers fuel rest5).map
                    (fun p => ((String.mk kChars, v) :: p.1, p.2))
              | c5 :: rest5 =>
                  if c5 == '\x7d' then some ([(String.mk kChars, v)], rest5) else none
              | [] => none
          | _ => none
      else none

end

/-- Model of `json.loads`: parse one value, then require only whitespace
to remain; any leftover input is a decode error. -/
def jsonLoads (s : String) : Option Json :=
  let cs := s.toList
  match parseVal (4 * cs.length + 4) cs with
  | some (v, rest) => if (skipJWs rest).isEmpty then some v else none
  | none => none

example : jsonLoads "\x7b\"reasoning\": \"x\", \"plan\": []\x7d" =
    some (Json.obj [("reasoning", Json.str "x"), ("plan", Json.arr [])]) := rfl

example : jsonLoads "not json" = none := rfl

example : jsonLoads "" = none := rfl

example : jsonLoads " [1, -2, true, null, \"a\\n\", 2.5] " =
    some (Json.arr [Json.numI 1, Json.numI (-2), Json.bool true, Json.null,
      Json.str "a\n", Json.numF "2.5"]) := rfl

example : jsonLoads "\x7b\"a\": 1, \"a\": 2\x7d" =
    some (Json.obj [("a", Json.numI 2)]) := rfl

example : jsonLoads "\x7b\"a\": 1\x7d trailing" = none := rfl

/-! ### Serialisation (model of `json.dumps`, compact form) -/

/-- Escape one character for a JSON string literal. -/
def escapeJChar (c : Char) : List Char :=
  if c == '"' then ['\\', '"']
  else if c == '\\' then ['\\', '\\']
  else if c == '\n' then ['\\', 'n']
  else if c == '\t' then ['\\', 't']
  else if c == '\r' then ['\\', 'r']
  else [c]

/-- Escape a string body for serialisation. -/
def escapeJStr (s : String) : String :=
  String.mk (s.toList.flatMap escapeJChar)

mutual

/-- Model of `json.dumps` (compact; the `indent=2` pretty layout of the
source only affects prompt text fed to the model oracle, not any result). -/
def jsonDump : Json → String
  | Json.null => "null"
  | Json.bool b => if b then "true" else "false"
  | Json.numI n => toString n
  | Json.numF s => s
  | Json.str s => "\"" ++ escapeJStr s ++ "\""
  | Json.arr xs => "[" ++ jsonDumpList xs ++ "]"
  | Json.obj kvs => "\x7b" ++ jsonDumpMembers kvs ++ "\x7d"

/-- Serialise array elements. -/
def jsonDumpList : List Json → String
  | [] => ""
  | [x] => jsonDump x
  | x :: xs => jsonDump x ++ ", " ++ jsonDumpList xs

/-- Serialise object members. -/
def jsonDumpMembers : List (String × Json) → String
  | [] => ""
  | [(k, v)] => "\"" ++ escapeJStr k ++ "\": " ++ jsonDump v
  | (k, v) :: kvs => "\"" ++ escapeJStr k ++ "\": " ++ jsonDump v ++ ", " ++ jsonDumpMembers kvs

end

/-! ### Reasoning engine (`src/agent/reasoning.py`) -/

/-- A stored conversation message (`Message` of the data model): role,
content, timestamp (a `Nat` clock value standing for the ISO timestamp)
and opaque metadata. -/
structure Message where
  role : String
  content : String
  timestamp : Nat
  metadata : Json
deriving Repr, Inhabited

/-- A tool definition as handed to the planning prompt
(`BaseTool.get_definition` without the parameter schema, which
`_build_reasoning_prompt` does not read). -/
structure ToolDefinition where
  name : String
  description : String
deriving Repr, Inhabited

/-- Result of `_parse_reasoning_output` / `reason`: the `reasoning` and
`plan` values of the returned dict (dynamically typed in the source,
hence both are `Json`). -/
structure ParsedReasoning where
  reasoning : Json
  plan : Json
deriving Repr, Inhabited

/-- The fenced-block / brace-span extraction of
`ReasoningEngine._parse_reasoning_output`: if the text contains a
```json fence, take from after that marker to the next ``` and strip;
else if it contains any ``` fence, same from after it; else take from
the first brace to one past the last closing brace (no strip). -/
def extractJsonText (t : String) : String :=
  if pyContains t "```json" then
    let jsonStart := pyFind t "```json" + 7
    let jsonEnd := pyFindFrom t "```" jsonStart.toNat
    pyStrip (pySlice t jsonStart jsonEnd)
  else if pyContains t "```" then
    let jsonStart := pyFind t "```" + 3
    let jsonEnd := pyFindFrom t "```" jsonStart.toNat
    pyStrip (pySlice t jsonStart jsonEnd)
  else
    let jsonStart := pyFind t "\x7b"
    let jsonEnd := pyRFind t "\x7d" + 1
    pySlice t jsonStart jsonEnd

/-- `ReasoningEngine._parse_reasoning_output`: decode the extracted span;
on a decoded object return its `reasoning` (default `""`) and `plan`
(default `[]`); any decode failure — including a decoded non-object, on
which `parsed.get` would raise inside the same `try` — falls back to the
raw text as reasoning with an empty plan. -/
def parseReasoningOutput (reasoningText : String) : ParsedReasoning :=
  let jsonText := extractJsonText reasoningText
  match jsonLoads jsonText with
  | some (Json.obj kvs) =>
      { reasoning := (lookupKV kvs "reasoning").getD (Json.str ""),
        plan := (lookupKV kvs "plan").getD (Json.arr []) }
  | _ =>
      { reasoning := Json.str reasoningText, plan := Json.arr [] }

/-- `ReasoningEngine._build_reasoning_prompt`: the tool catalog rendered
as "- name: description" lines, the last 5 history messages as
"role: content" lines (placeholder when empty), the serialised context
(placeholder when absent), and the fixed instruction template. -/
def buildReasoningPrompt (query : String) (history : List Message)
    (availableTools : List ToolDefinition) (context : Option Json) : String :=
  let toolsDescription :=
    String.intercalate "\n"
      (availableTools.map (fun tool => "- " ++ tool.name ++ ": " ++ tool.description))
  let historyText :=
    if history.isEmpty then "No previous conversation"
    else
      String.intercalate "\n"
        ((pySliceFrom history (-5)).map (fun msg => msg.role ++ ": " ++ msg.content))
  let contextText :=
    match context with
    | some ctx => jsonDump ctx
    | none => "No additional context"
  "Analyze the following user request and create a detailed action plan.\n\n" ++
  "User Request: " ++ query ++ "\n\n" ++
  "Conversation History:\n" ++ historyText ++ "\n\n" ++
  "Additional Context:\n" ++ contextText ++ "\n\n" ++
  "Available Tools:\n" ++ toolsDescription ++ "\n\n" ++
  "IMPORTANT: You must respond with a JSON object containing your reasoning and a plan with tool calls.\n\n" ++
  "EXAMPLES OF CORRECT TOOL USAGE:\n\n" ++
  "Example 1 - List EC2 instances:\n" ++
  "\x7b\n    \"reasoning\": \"User wants to see EC2 instances. I\x27ll use aws_infrastructure tool.\",\n" ++
  "    \"plan\": [\n        \x7b\n            \"step\": 1,\n            \"tool\": \"aws_infrastructure\",\n" ++
  "            \"input\": \x7b\"action\": \"list\", \"service\": \"ec2\"\x7d,\n" ++
  "            \"rationale\": \"Query AWS EC2\",\n            \"requires_approval\": false\n        \x7d\n    ]\n\x7d\n\n" ++
  "Example 2 - List Lambda functions:\n" ++
  "\x7b\n    \"reasoning\": \"User wants Lambda functions. I\x27ll use aws_infrastructure tool.\",\n" ++
  "    \"plan\": [\n        \x7b\n            \"step\": 1,\n            \"tool\": \"aws_infrastructure\",\n" ++
  "            \"input\": \x7b\"action\": \"list\", \"service\": \"lambda\"\x7d,\n" ++
  "            \"rationale\": \"Query AWS Lambda\",\n            \"requires_approval\": false\n        \x7d\n    ]\n\x7d\n\n" ++
  "Example 3 - Analyze costs:\n" ++
  "\x7b\n    \"reasoning\": \"User wants cost analysis. I\x27ll use cost_analysis tool.\",\n" ++
  "    \"plan\": [\n        \x7b\n            \"step\": 1,\n            \"tool\": \"cost_analysis\",\n" ++
  "            \"input\": \x7b\"time_period\": \"last_month\"\x7d,\n" ++
  "            \"rationale\": \"Get cost data\",\n            \"requires_approval\": false\n        \x7d\n    ]\n\x7d\n\n" ++
  "Your response format:\n" ++
  "\x7b\n    \"reasoning\": \"Your step-by-step reasoning\",\n" ++
  "    \"plan\": [\n        \x7b\n            \"step\": 1,\n            \"tool\": \"tool_name\",\n" ++
  "            \"input\": \x7b\"param\": \"value\"\x7d,\n" ++
  "            \"rationale\": \"Why this step is needed\",\n            \"requires_approval\": false\n        \x7d\n    ]\n\x7d\n\n" ++
  "CRITICAL RULES:\n" ++
  "1. ALWAYS use tools - NEVER suggest manual steps or AWS CLI\n" ++
  "2. For ANY AWS resource query, use: aws_infrastructure with action=\"list\"\n" ++
  "3. ONLY valid actions for aws_infrastructure: \"list\" (nothing else!)\n" ++
  "4. ONLY valid services: \"ec2\", \"lambda\", \"s3\"\n" ++
  "5. For costs: use cost_analysis tool\n" ++
  "6. For code: use code_analysis tool\n\n" ++
  "REMEMBER: action must ALWAYS be exactly \"list\" for aws_infrastructure tool!"

/-- `ReasoningEngine.reason`. The Bedrock `invoke_model` round trip —
request-body construction, the network call and response-body decoding,
all inside the method's `try` — is abstracted as an oracle from the
built prompt to either the extracted response text (`some`) or a raised
exception (`none`); the `except` arm returns the fixed fallback with an
empty plan. -/
def reason (query : String) (history : List Message)
    (availableTools : List ToolDefinition) (context : Option Json)
    (model : String → Option String) : ParsedReasoning :=
  let prompt := buildReasoningPrompt query history availableTools context
  match model prompt with
  | some reasoningText => parseReasoningOutput reasoningText
  | none =>
      { reasoning := Json.str "Unable to complete reasoning due to an error",
        plan := Json.arr [] }

example : parseReasoningOutput "```json\n\x7b\"reasoning\": \"x\", \"plan\": []\x7d\n```" =
    { reasoning := Json.str "x", plan := Json.arr [] } := rfl

example : parseReasoningOutput "total garbage" =
    { reasoning := Json.str "total garbage", plan := Json.arr [] } := rfl

/-! ### Conversation stores (`src/storage/memory_store.py`, `src/storage/dynamodb.py`) -/

/-- A session record: `last_activity` and `message_count`. -/
structure SessionInfo where
  lastActivity : Nat
  messageCount : Nat
deriving Repr, DecidableEq

/-- `MemoryConversationStore` state: the `conversations` defaultdict
(session id → message list, default `[]`) and the `sessions` dict. -/
structure MemoryStore where
  conversations : String → List Message
  sessions : String → Option SessionInfo

/-- A fresh `MemoryConversationStore()`. -/
def memInit : MemoryStore := ⟨fun _ => [], fun _ => none⟩

/-- `MemoryConversationStore.add_message`; `now` is the
`datetime.utcnow()` timestamp of the call. -/
def memAddMessage (st : MemoryStore) (sessionId role content : String)
    (metadata : Option Json) (now : Nat) : MemoryStore :=
  let message : Message :=
    { role := role, content := content, timestamp := now,
      metadata := metadata.getD (Json.obj []) }
  let convs := fun s =>
    if s == sessionId then st.conversations s ++ [message] else st.conversations s
  { conversations := convs,
    sessions := fun s =>
      if s == sessionId then some ⟨now, (convs sessionId).length⟩ else st.sessions s }

/-- `MemoryConversationStore.get_history`:
`messages[-limit:] if messages else []`. -/
def memGetHistory (st : MemoryStore) (sessionId : String) (limit : Int) : List Message :=
  let messages := st.conversations sessionId
  if messages.isEmpty then [] else pySliceFrom messages (-limit)

/-- A row of the DynamoDB conversations table (partition key
`session_id` held by the enclosing map, range key `timestamp`). The
`metadata` attribute is stored through a `json.dumps`/`json.loads`
round trip in the source; the model keeps the value. -/
structure DynRow where
  timestamp : Nat
  role : String
  content : String
  metadata : Json
deriving Repr

/-- Durable `ConversationStore` state. Each partition's rows are kept
ascending by range key, as a DynamoDB table stores them; `clock` models
`datetime.utcnow()` as a strictly monotone counter. -/
structure DynConvStore where
  table : String → List DynRow
  sessions : String → Option SessionInfo
  clock : Nat

/-- An initialised durable store over empty tables. -/
def dynInit : DynConvStore := ⟨fun _ => [], fun _ => none, 0⟩

/-- DynamoDB `put_item` into a partition: replace the row with the same
range key, else insert at its sorted position. -/
def insertRow : List DynRow → DynRow → List DynRow
  | [], r => [r]
  | x :: xs, r =>
    if r.timestamp < x.timestamp then r :: x :: xs
    else if r.timestamp == x.timestamp then r :: xs
    else x :: insertRow xs r

/-- `ConversationStore._get_message_count`: a `Select='COUNT'` query. -/
def dynMessageCount (st : DynConvStore) (sessionId : String) : Nat :=
  (st.table sessionId).length

/-- `ConversationStore.add_message`: put the message row, then put the
session record with the post-insert count. -/
def dynAddMessage (st : DynConvStore) (sessionId role content : String)
    (metadata : Option Json) : DynConvStore :=
  let timestamp := st.clock
  let row : DynRow :=
    { timestamp := timestamp, role := role, content := content,
      metadata := metadata.getD (Json.obj []) }
  let table := fun s =>
    if s == sessionId then insertRow (st.table s) row else st.table s
  { table := table,
    sessions := fun s =>
      if s == sessionId then
        some ⟨timestamp, dynMessageCount ⟨table, st.sessions, st.clock⟩ sessionId⟩
      else st.sessions s,
    clock := st.clock + 1 }

/-- Rebuild a message dict from a table row. -/
def rowToMessage (r : DynRow) : Message :=
  { role := r.role, content := r.content, timestamp := r.timestamp,
    metadata := r.metadata }

/-- `ConversationStore.get_history`: query `Limit=limit` with
`ScanIndexForward=False` (most recent first), then reverse into
chronological order. DynamoDB rejects a non-positive `Limit`, which the
method's `except` arm turns into `[]`. -/
def dynGetHistory (st : DynConvStore) (sessionId : String) (limit : Int) : List Message :=
  if limit < 1 then []
  else (((st.table sessionId).reverse.take limit.toNat).reverse).map rowToMessage

/-! ### Orchestrator (`src/agent/bedrock_agent.py`) -/

/-- A plan step as consumed by `_execute_plan`: `step.get('tool')`,
`step.get('input', {})`, `step.get('requires_approval')` (a missing or
falsy field reads as `false`). -/
structure PlanStep where
  tool : String
  input : Json
  requiresApproval : Bool
deriving Repr

/-- Status of a step-level `ExecutionResult`. -/
inductive StepStatus where
  | success
  | error
  | pendingApproval
deriving Repr, DecidableEq, BEq

/-- A step-level result entry of `_execute_plan`: the payload is the
tool's `result` on success, the exception text on `error`, and the
fixed approval message on `pending_approval`. -/
structure ExecutionResult where
  tool : String
  status : StepStatus
  payload : Json
deriving Repr

/-- One actual invocation of a registered tool (trace event). -/
structure Invocation where
  tool : String
  input : Json
deriving Repr

/-- A `PendingAction` record of the actions table. The `action`
attribute is stored through `json.dumps`/`json.loads` in the source;
the model keeps the step. -/
structure PendingAction where
  sessionId : String
  actionId : String
  action : PlanStep
  status : String
  createdAt : Nat
  executedAt : Option Nat
deriving Repr

/-- Orchestrator-side mutable state: the pending-actions table and the
monotone `datetime.utcnow()` clock. -/
structure AgentState where
  pending : List PendingAction
  clock : Nat
deriving Repr

/-- A registered tool's executor: structured input to structured output;
a raised exception is `Except.error` with the exception text. -/
abbrev ToolFun := Json → Except String Json

/-- The tool registry's name → tool mapping. -/
abbrev Registry := List (String × ToolFun)

/-- Python `self.tools[name]` lookup. -/
def lookupTool : Registry → String → Option ToolFun
  | [], _ => none
  | (n, f) :: rest, name => if n == name then some f else lookupTool rest name

/-- `ToolRegistry.execute_tool`, with an invocation trace: an
unregistered name raises `ValueError(f"Tool {name} not found")` without
invoking anything; otherwise the tool runs (one trace event) and its
result or exception passes through unmodified. -/
def executeTool (reg : Registry) (toolName : String) (toolInput : Json) :
    Except String Json × List Invocation :=
  match lookupTool reg toolName with
  | none => (Except.error ("Tool " ++ toolName ++ " not found"), [])
  | some f => (f toolInput, [⟨toolName, toolInput⟩])

/-- The fresh action id `f"{session_id}-{timestamp}"`. -/
def mkActionId (sessionId : String) (clock : Nat) : String :=
  sessionId ++ "-" ++ toString clock

/-- DynamoDB `put_item` on the actions table: replace the item with the
same `(session_id, action_id)` key, else append. -/
def putPending (l : List PendingAction) (pa : PendingAction) : List PendingAction :=
  if l.any (fun r => r.sessionId == pa.sessionId && r.actionId == pa.actionId) then
    l.map (fun r =>
      if r.sessionId == pa.sessionId && r.actionId == pa.actionId then pa else r)
  else l ++ [pa]

/-- `DevOpsAgent._store_pending_action`. -/
def storePendingAction (sessionId : String) (action : PlanStep) (st : AgentState) :
    AgentState :=
  let pa : PendingAction :=
    { sessionId := sessionId, actionId := mkActionId sessionId st.clock,
      action := action, status := "pending", createdAt := st.clock,
      executedAt := none }
  { pending := putPending st.pending pa, clock := st.clock + 1 }

/-- The `pending_approval` result entry appended for a gated step. -/
def pendingResult (toolName : String) : ExecutionResult :=
  ⟨toolName, StepStatus.pendingApproval, Json.str "Action requires human approval"⟩

/-- One iteration of the `for step in plan` loop of `_execute_plan`:
a gated step (requires approval and the feature flag enabled) stores a
pending action and contributes no invocation; otherwise the tool is
executed and success or the caught per-step exception is recorded. -/
def executePlanStep (enableHumanApproval : Bool) (reg : Registry) (sessionId : String)
    (st : AgentState) (step : PlanStep) :
    ExecutionResult × AgentState × List Invocation :=
  if step.requiresApproval && enableHumanApproval then
    (pendingResult step.tool, storePendingAction sessionId step st, [])
  else
    match executeTool reg step.tool step.input with
    | (Except.ok toolResult, tr) => (⟨step.tool, StepStatus.success, toolResult⟩, st, tr)
    | (Except.error e, tr) => (⟨step.tool, StepStatus.error, Json.str e⟩, st, tr)

/-- `DevOpsAgent._execute_plan`. -/
def executePlan (enableHumanApproval : Bool) (reg : Registry) (sessionId : String)
    (st : AgentState) (plan : List PlanStep) :
    List ExecutionResult × AgentState × List Invocation :=
  match plan with
  | [] => ([], st, [])
  | step :: rest =>
    let (r, st1, tr1) := executePlanStep enableHumanApproval reg sessionId st step
    let (rs, st2, tr2) := executePlan enableHumanApproval reg sessionId st1 rest
    (r :: rs, st2, tr1 ++ tr2)

/-- DynamoDB `get_item` on the actions table by its composite key. -/
def findPending : List PendingAction → String → String → Option PendingAction
  | [], _, _ => none
  | r :: rest, sid, aid =>
      if r.sessionId == sid && r.actionId == aid then some r
      else findPending rest sid aid

/-- The `update_item` marking an action executed with a timestamp. -/
def markExecuted (l : List PendingAction) (sid aid : String) (now : Nat) :
    List PendingAction :=
  l.map (fun r =>
    if r.sessionId == sid && r.actionId == aid then
      { r with status := "executed", executedAt := some now }
    else r)

/-- `DevOpsAgent.approve_action`: an unknown key returns the
`Action not found` error dict and does nothing else; otherwise the
stored step is re-executed through the registry (regardless of the
record's `status`); only if that does not raise is the record marked
executed and the raw tool result returned — an exception from
`execute_tool` propagates before the status update runs. -/
def approveAction (reg : Registry) (st : AgentState) (sessionId actionId : String) :
    Except String Json × AgentState × List Invocation :=
  match findPending st.pending sessionId actionId with
  | none => (Except.ok (Json.obj [("error", Json.str "Action not found")]), st, [])
  | some pa =>
    match executeTool reg pa.action.tool pa.action.input with
    | (Except.ok result, tr) =>
        (Except.ok result,
         { pending := markExecuted st.pending sessionId actionId st.clock,
           clock := st.clock + 1 },
         tr)
    | (Except.error e, tr) => (Except.error e, st, tr)

/-- `DevOpsAgent._generate_response`, with the narration model call as an
oracle (`some text` = successful round trip, `none` = raised exception).
On success `requires_approval` is `any(r.get('status') ==
'pending_approval')` over the execution results; the `except` arm
returns the generic fallback with `requires_approval` hard-coded to
`False`. -/
def generateResponse (narration : Option String)
    (executionResults : List ExecutionResult) : String × Bool :=
  match narration with
  | some message =>
      (message, executionResults.any (fun r => r.status == StepStatus.pendingApproval))
  | none =>
      ("I\x27ve processed your request. Please check the action results for details.",
       false)

/-- The structured response of `process_message` (the `timestamp` field
of the dict is the response-time clock and carries no claim content). -/
structure AgentResponse where
  message : String
  reasoning : Json
  actionsTaken : List ExecutionResult
  requiresApproval : Bool
  sessionId : String
deriving Repr

/-- `DevOpsAgent.process_message` (success path; in this typed model
storage cannot raise and every other failure is handled below the
top-level `try`). The reasoning phase's outcome arrives as the already
decoded `reasoning` value and typed plan (the free-text side of that
boundary is `parseReasoningOutput`); the narration call is an oracle. -/
def processMessage (enableHumanApproval : Bool) (reg : Registry)
    (st : AgentState) (cs : DynConvStore) (message sessionId : String)
    (reasoningText : Json) (plan : List PlanStep) (narration : Option String) :
    AgentResponse × AgentState × DynConvStore × List Invocation :=
  let _history := dynGetHistory cs sessionId 50
  let cs1 := dynAddMessage cs sessionId "user" message none
  let (executionResults, st1, tr) := executePlan enableHumanApproval reg sessionId st plan
  let (finalMessage, requiresApproval) := generateResponse narration executionResults
  let cs2 := dynAddMessage cs1 sessionId "assistant" finalMessage none
  ({ message := finalMessage, reasoning := reasoningText,
     actionsTaken := executionResults, requiresApproval := requiresApproval,
     sessionId := sessionId }, st1, cs2, tr)

/-! ### Concrete tool stubs (`src/agent/tools.py`), used as witnesses -/

/-- Python `str()` rendering of a decoded JSON value, as an f-string
would display it (containers approximated by their JSON form). -/
def pyStrOf : Json → String
  | Json.str s => s
  | Json.bool b => if b then "True" else "False"
  | Json.null => "None"
  | Json.numI n => toString n
  | Json.numF s => s
  | v => jsonDump v

/-- `WebSearchTool.execute` (simulated search results). -/
def webSearchExecute : ToolFun := fun toolInput =>
  let query := pyStrOf ((Json.get toolInput "query").getD (Json.str ""))
  Except.ok (Json.obj
    [("success", Json.bool true),
     ("results", Json.arr
       [Json.obj
         [("title", Json.str ("Result for: " ++ query)),
          ("url", Json.str "https://example.com"),
          ("snippet", Json.str "Relevant information about the query...")]])])

/-- `KnowledgeBaseTool.execute` (stubbed RAG lookup). -/
def knowledgeBaseExecute : ToolFun := fun _ =>
  Except.ok (Json.obj
    [("success", Json.bool true),
     ("results", Json.arr
       [Json.obj
         [("content", Json.str "Relevant documentation content"),
          ("source", Json.str "internal_docs.md"),
          ("relevance_score", Json.numF "0.95")]])])

/-- `CodeAnalysisTool.execute` (two-rule linter). -/
def codeAnalysisExecute : ToolFun := fun toolInput =>
  let code := pyStrOf ((Json.get toolInput "code").getD (Json.str ""))
  let language := pyStrOf ((Json.get toolInput "language").getD (Json.str "python"))
  let issues : List Json :=
    (if language == "python" && pyContains code "eval(" then
      [Json.obj [("severity", Json.str "high"),
                 ("message", Json.str "Use of eval() is a security risk"),
                 ("line", Json.numI (pyFind code "eval("))]]
     else []) ++
    (if language == "python" && pyContains code "import *" then
      [Json.obj [("severity", Json.str "medium"),
                 ("message", Json.str "Wildcard imports are discouraged"),
                 ("line", Json.numI (pyFind code "import *"))]]
     else [])
  Except.ok (Json.obj
    [("success", Json.bool true),
     ("issues", Json.arr issues),
     ("issue_count", Json.numI (issues.length : Int)),
     ("recommendations", Json.arr
       [Json.str "Use proper error handling",
        Json.str "Add type hints",
        Json.str "Include docstrings"])])

/-- A concrete sub-registry of the always-pure stub tools, used to
instantiate witnesses (the full startup registry adds the three
AWS-backed tools, whose executors are network oracles). -/
def demoRegistry : Registry :=
  [("web_search", webSearchExecute),
   ("code_analysis", codeAnalysisExecute),
   ("knowledge_base", knowledgeBaseExecute)]

/-- The pending action created for a gated step at clock `clock`
(the `Item` of `_store_pending_action`). -/
def mkPendingAction (sessionId : String) (action : PlanStep) (clock : Nat) :
    PendingAction :=
  { sessionId := sessionId, actionId := mkActionId sessionId clock,
    action := action, status := "pending", createdAt := clock,
    executedAt := none }

/-! ### Per-step decomposition of `_execute_plan` -/

/-- The result entry a step contributes, as a function of the step alone
(a step's entry does not depend on the surrounding state or siblings). -/
def stepResult (enableHumanApproval : Bool) (reg : Registry) (step : PlanStep) :
    ExecutionResult :=
  if step.requiresApproval && enableHumanApproval then
    pendingResult step.tool
  else
    match executeTool reg step.tool step.input with
    | (Except.ok toolResult, _) => ⟨step.tool, StepStatus.success, toolResult⟩
    | (Except.error e, _) => ⟨step.tool, StepStatus.error, Json.str e⟩

/-- The tool invocations a step contributes: none when gated, the
`execute_tool` trace otherwise. -/
def stepTrace (enableHumanApproval : Bool) (reg : Registry) (step : PlanStep) :
    List Invocation :=
  if step.requiresApproval && enableHumanApproval then []
  else (executeTool reg step.tool step.input).2

theorem executePlanStep_fst (flag : Bool) (reg : Registry) (sid : String)
    (st : AgentState) (step : PlanStep) :
    (executePlanStep flag reg sid st step).1 = stepResult flag reg step := by
  unfold executePlanStep stepResult
  by_cases h : (step.requiresApproval && flag) = true
  · simp [h]
  · rcases hE : executeTool reg step.tool step.input with ⟨r, tr⟩
    cases r <;> simp [h, hE]

theorem executePlanStep_trace (flag : Bool) (reg : Registry) (sid : String)
    (st : AgentState) (step : PlanStep) :
    (executePlanStep flag reg sid st step).2.2 = stepTrace flag reg step := by
  unfold executePlanStep stepTrace
  by_cases h : (step.requiresApproval && flag) = true
  · simp [h]
  · rcases hE : executeTool reg step.tool step.input with ⟨r, tr⟩
    cases r <;> simp [h, hE]

theorem executePlan_results (flag : Bool) (reg : Registry) (sid : String) :
    ∀ (plan : List PlanStep) (st : AgentState),
      (executePlan flag reg sid st plan).1 = plan.map (stepResult flag reg) := by
  intro plan
  induction plan with
  | nil => intro st; rfl
  | cons step rest ih =>
      intro st
      simp only [executePlan, List.map_cons]
      rcases hS : executePlanStep flag reg sid st step with ⟨r, st1, tr1⟩
      rcases hR : executePlan flag reg sid st1 rest with ⟨rs, st2, tr2⟩
      have h1 : r = stepResult flag reg step := by
        have := executePlanStep_fst flag reg sid st step
        rw [hS] at this; exact this
      have h2 : rs = rest.map (stepResult flag reg) := by
        have := ih st1
        rw [hR] at this; exact this
      simp [h1, h2]

theorem executePlan_trace (flag : Bool) (reg : Registry) (sid : String) :
    ∀ (plan : List PlanStep) (st : AgentState),
      (executePlan flag reg sid st plan).2.2 = (plan.map (stepTrace flag reg)).flatten := by
  intro plan
  induction plan with
  | nil => intro st; rfl
  | cons step rest ih =>
      intro st
      simp only [executePlan, List.map_cons, List.flatten]
      rcases hS : executePlanStep flag reg sid st step with ⟨r, st1, tr1⟩
      rcases hR : executePlan flag reg sid st1 rest with ⟨rs, st2, tr2⟩
      have h1 : tr1 = stepTrace flag reg step := by
        have := executePlanStep_trace flag reg sid st step
        rw [hS] at this; exact this
      have h2 : tr2 = (rest.map (stepTrace flag reg)).flatten := by
        have := ih st1
        rw [hR] at this; exact this
      simp [h1, h2]

/-- A gated step stores a fresh pending action, appends nothing else and
invokes nothing. -/
theorem executePlanStep_gated (reg : Registry) (sid : String) (st : AgentState)
    (step : PlanStep) (hga : step.requiresApproval = true)
    (hfresh : st.pending.any (fun r =>
      r.sessionId == sid && r.actionId == mkActionId sid st.clock) = false) :
    executePlanStep true reg sid st step =
      (pendingResult step.tool,
       ⟨st.pending ++ [mkPendingAction sid step st.clock], st.clock + 1⟩, []) := by
  unfold executePlanStep storePendingAction putPending mkPendingAction
  simp [hga, hfresh]

/-- `get_item` after `update_item` on the same key: the found record is
the stored one with its status overwritten. -/
theorem findPending_markExecuted (l : List PendingAction) (sid aid : String) (now : Nat) :
    findPending (markExecuted l sid aid now) sid aid =
      (findPending l sid aid).map
        (fun r => { r with status := "executed", executedAt := some now }) := by
  induction l with
  | nil => rfl
  | cons r rest ih =>
      simp only [markExecuted, List.map_cons]
      by_cases h : (r.sessionId == sid && r.actionId == aid) = true
      · rw [if_pos h]
        simp only [findPending]
        rw [if_pos h, if_pos h]
        rfl
      · rw [if_neg h]
        simp only [findPending]
        rw [if_neg h, if_neg h]
        exact ih

/-! ### Sequences of `add_message` calls -/

/-- One `add_message(session_id, role, content, metadata)` call; for the
in-memory store `timestamp` is the `datetime.utcnow()` value of the
call. -/
structure AddCall where
  sessionId : String
  role : String
  content : String
  metadata : Option Json
  timestamp : Nat
deriving Repr

/-- The message dict an `add_message` call appends. -/
def callMessage (c : AddCall) : Message :=
  ⟨c.role, c.content, c.timestamp, c.metadata.getD (Json.obj [])⟩

/-- Run a sequence of `add_message` calls on the in-memory store. -/
def memApply (st : MemoryStore) (calls : List AddCall) : MemoryStore :=
  calls.foldl
    (fun s c => memAddMessage s c.sessionId c.role c.content c.metadata c.timestamp) st

/-- The messages a call sequence adds to one session, in call order. -/
def msgsFor (calls : List AddCall) (sid : String) : List Message :=
  (calls.filter (fun c => c.sessionId == sid)).map callMessage

theorem memApply_conversations :
    ∀ (calls : List AddCall) (st : MemoryStore) (s : String),
      (memApply st calls).conversations s = st.conversations s ++ msgsFor calls s := by
  intro calls
  induction calls with
  | nil => intro st s; simp [memApply, msgsFor]
  | cons c cs ih =>
      intro st s
      have h1 : memApply st (c :: cs) =
          memApply (memAddMessage st c.sessionId c.role c.content c.metadata c.timestamp) cs := rfl
      rw [h1, ih]
      by_cases hs : s = c.sessionId
      · subst hs
        simp [memAddMessage, msgsFor, callMessage, List.filter_cons]
      · have hb : (s == c.sessionId) = false := by simp [hs]
        have hb2 : (c.sessionId == s) = false := by
          simp only [beq_eq_false_iff_ne, ne_eq]
          exact fun hh => hs hh.symm
        simp [memAddMessage, msgsFor, List.filter_cons, hb, hb2]
        exact hs

/-- Python slice `l[-limit:]` keeps the last `limit` elements when
`limit ≥ 1`. -/
theorem pySliceFrom_neg {α : Type} (l : List α) (limit : Int) (h : 1 ≤ limit) :
    pySliceFrom l (-limit) = l.drop (l.length - limit.toNat) := by
  have hneg : (-limit : Int) < 0 := by omega
  simp only [pySliceFrom, hneg, if_true]
  congr 1
  omega

/-- `put_item` of a row above every stored range key lands at the end of
the partition. -/
theorem insertRow_append (l : List DynRow) (r : DynRow)
    (h : ∀ x ∈ l, x.timestamp < r.timestamp) : insertRow l r = l ++ [r] := by
  induction l with
  | nil => rfl
  | cons x xs ih =>
      have hx : x.timestamp < r.timestamp := h x (by simp)
      unfold insertRow
      rw [if_neg (by omega), if_neg (by simp only [beq_iff_eq]; omega)]
      rw [ih (fun y hy => h y (by simp [hy]))]
      simp

/-- Clock invariant: every stored row is older than the clock. -/
def tsBelow (st : DynConvStore) : Prop :=
  ∀ s r, r ∈ st.table s → r.timestamp < st.clock

/-- Run a sequence of `add_message` calls on the durable store
(timestamps assigned by its clock). -/
def dynApply (st : DynConvStore) (calls : List AddCall) : DynConvStore :=
  calls.foldl (fun s c => dynAddMessage s c.sessionId c.role c.content c.metadata) st

/-- The rows a call sequence inserts for one session when the clock
starts at `clk`, in call order. -/
def dynRowsFor : List AddCall → String → Nat → List DynRow
  | [], _, _ => []
  | c :: cs, sid, clk =>
      (if c.sessionId == sid then
        [⟨clk, c.role, c.content, c.metadata.getD (Json.obj [])⟩]
       else []) ++ dynRowsFor cs sid (clk + 1)

theorem dynAddMessage_step (st : DynConvStore) (c : AddCall) (h : tsBelow st) :
    (∀ s, (dynAddMessage st c.sessionId c.role c.content c.metadata).table s =
       st.table s ++ (if c.sessionId == s then
         [⟨st.clock, c.role, c.content, c.metadata.getD (Json.obj [])⟩] else []))
    ∧ tsBelow (dynAddMessage st c.sessionId c.role c.content c.metadata)
    ∧ (dynAddMessage st c.sessionId c.role c.content c.metadata).clock = st.clock + 1 := by
  have hrow : ∀ s, (dynAddMessage st c.sessionId c.role c.content c.metadata).table s =
      if s == c.sessionId then
        insertRow (st.table s)
          ⟨st.clock, c.role, c.content, c.metadata.getD (Json.obj [])⟩
      else st.table s := fun _ => rfl
  have htab : ∀ s, (dynAddMessage st c.sessionId c.role c.content c.metadata).table s =
      st.table s ++ (if c.sessionId == s then
        [⟨st.clock, c.role, c.content, c.metadata.getD (Json.obj [])⟩] else []) := by
    intro s
    rw [hrow s]
    by_cases hs : s = c.sessionId
    · have hb : (s == c.sessionId) = true := by simp [hs]
      have hb2 : (c.sessionId == s) = true := by simp [hs]
      rw [if_pos hb, if_pos hb2, insertRow_append _ _ (fun x hx => h s x hx)]
    · have hb : (s == c.sessionId) = false := by simp [hs]
      have hb2 : (c.sessionId == s) = false := by
        simp only [beq_eq_false_iff_ne, ne_eq]
        exact fun hh => hs hh.symm
      rw [if_neg (by simp [hb]), if_neg (by simp [hb2])]
      simp
  refine ⟨htab, ?_, rfl⟩
  intro s r hr
  rw [htab s] at hr
  rcases List.mem_append.mp hr with hold | hnew
  · have := h s r hold
    simp only [dynAddMessage]
    omega
  · by_cases hc : (c.sessionId == s) = true
    · rw [if_pos hc] at hnew
      simp at hnew
      simp only [dynAddMessage, hnew]
      omega
    · rw [if_neg hc] at hnew
      simp at hnew

theorem dynApply_table :
    ∀ (calls : List AddCall) (st : DynConvStore), tsBelow st →
      (∀ s, (dynApply st calls).table s = st.table s ++ dynRowsFor calls s st.clock)
      ∧ tsBelow (dynApply st calls) := by
  intro calls
  induction calls with
  | nil =>
      intro st h
      exact ⟨fun s => by simp [dynApply, dynRowsFor], h⟩
  | cons c cs ih =>
      intro st h
      have hstep := dynAddMessage_step st c h
      have h1 : dynApply st (c :: cs) =
          dynApply (dynAddMessage st c.sessionId c.role c.content c.metadata) cs := rfl
      have hrec := ih (dynAddMessage st c.sessionId c.role c.content c.metadata) hstep.2.1
      refine ⟨fun s => ?_, by rw [h1]; exact hrec.2⟩
      rw [h1, hrec.1 s, hstep.1 s, hstep.2.2]
      simp [dynRowsFor]

/-- Taking `k` from the reverse and reversing again keeps the last `k`
elements. -/
theorem reverse_take_reverse {α : Type} (l : List α) (k : Nat) :
    (l.reverse.take k).reverse = l.drop (l.length - k) := by
  induction l with
  | nil => simp
  | cons x xs ih =>
      by_cases hk : k ≤ xs.length
      · rw [List.reverse_cons,
            List.take_append_of_le_length (by rw [List.length_reverse]; omega)]
        have h2 : (x :: xs).length - k = (xs.length - k) + 1 := by
          simp only [List.length_cons]; omega
        rw [h2, List.drop_succ_cons, ← ih]
      · have h2 : (x :: xs).length - k = 0 := by
          simp only [List.length_cons]; omega
        rw [h2, List.drop_zero, List.reverse_cons,
            List.take_of_length_le (by simp only [List.length_append,
              List.length_reverse, List.length_cons]; simp; omega)]
        simp

/-! ### Concrete fixtures for witnesses and counterexamples -/

/-- A concrete tool input. -/
def demoInput : Json := Json.obj [("query", Json.str "q")]

/-- A gated plan step over the `web_search` stub. -/
def demoGatedStep : PlanStep :=
  { tool := "web_search", input := demoInput, requiresApproval := true }

/-- An ungated plan step over the `web_search` stub. -/
def demoPlainStep : PlanStep :=
  { tool := "web_search", input := demoInput, requiresApproval := false }

/-- A step naming a tool absent from the registry. -/
def demoBadStep : PlanStep :=
  { tool := "no_such_tool", input := Json.obj [], requiresApproval := false }

/-- A stored pending action whose stored tool name is not registered. -/
def orphanPending : PendingAction :=
  { sessionId := "s", actionId := "s-0",
    action := { tool := "nope", input := Json.obj [], requiresApproval := true },
    status := "pending", createdAt := 0, executedAt := none }

/-! ### Claim theorems -/

/-- Claim C5: for every plan, a per-step exception — including the
`Tool ... not found` error the registry raises for an unregistered
name — is recorded as a step-level `error` entry at that step's index,
later steps still execute (every index's entry is determined by its own
step alone), `_execute_plan` returns exactly one entry per plan step,
and no per-step exception propagates (the embedding is total and the
`except` arm produces the error entry). -/
theorem claim_C5_step_isolation (flag : Bool) (reg : Registry) (sid : String)
    (st : AgentState) (plan : List PlanStep) :
    (executePlan flag reg sid st plan).1.length = plan.length
    ∧ (∀ i : Nat, (executePlan flag reg sid st plan).1[i]? =
        (plan[i]?).map (stepResult flag reg))
    ∧ (∀ i : Nat, ∀ step : PlanStep, ∀ e : String,
        plan[i]? = some step →
        (step.requiresApproval && flag) = false →
        (executeTool reg step.tool step.input).1 = Except.error e →
        (executePlan flag reg sid st plan).1[i]? =
          some ⟨step.tool, StepStatus.error, Json.str e⟩) := by
  have hres := executePlan_results flag reg sid plan st
  refine ⟨by rw [hres]; simp, fun i => by rw [hres, List.getElem?_map], ?_⟩
  intro i step e hstep hflag htool
  rw [hres, List.getElem?_map, hstep]
  have hr : stepResult flag reg step = ⟨step.tool, StepStatus.error, Json.str e⟩ := by
    unfold stepResult
    rw [if_neg (by simp [hflag])]
    rcases hE : executeTool reg step.tool step.input with ⟨r, tr⟩
    rw [hE] at htool
    simp only at htool
    cases r with
    | ok v => exact absurd htool (by simp)
    | error e2 => simp_all
  simp [hr]

/-- Witness for C5: an unregistered tool name at step 0 is recorded as
an error entry, and step 1 still executes. -/
theorem claim_C5_witness :
    (executePlan false demoRegistry "s" ⟨[], 0⟩ [demoBadStep, demoPlainStep]).1[0]? =
      some ⟨"no_such_tool", StepStatus.error, Json.str "Tool no_such_tool not found"⟩
    ∧ (executePlan false demoRegistry "s" ⟨[], 0⟩ [demoBadStep, demoPlainStep]).1[1]? =
      some (stepResult false demoRegistry demoPlainStep) := by
  have h := claim_C5_step_isolation false demoRegistry "s" ⟨[], 0⟩
    [demoBadStep, demoPlainStep]
  exact ⟨h.2.2 0 demoBadStep "Tool no_such_tool not found" rfl rfl rfl, h.2.1 1⟩

/-- Claim C1: with the human-approval flag enabled, a plan step with
`requires_approval=true` yields a `pending_approval` entry at its index;
the plan's invocation trace is the join of the per-step traces and a
gated step's trace is empty (its tool is not invoked during execution);
executing the gated step stores exactly the fresh `pending` record
carrying the step; and `approve_action` on a stored record holding the
step is what invokes the stored tool — one invocation with exactly the
stored name and input. -/
theorem claim_C1_approval_gating (reg : Registry) (sessionId : String)
    (st : AgentState) (plan : List PlanStep) (i : Nat) (step : PlanStep)
    (hstep : plan[i]? = some step) (hga : step.requiresApproval = true) :
    (executePlan true reg sessionId st plan).1[i]? = some (pendingResult step.tool)
    ∧ (executePlan true reg sessionId st plan).2.2 =
        (plan.map (stepTrace true reg)).flatten
    ∧ stepTrace true reg step = []
    ∧ (∀ st0 : AgentState,
        st0.pending.any (fun r => r.sessionId == sessionId &&
          r.actionId == mkActionId sessionId st0.clock) = false →
        executePlanStep true reg sessionId st0 step =
          (pendingResult step.tool,
           ⟨st0.pending ++ [mkPendingAction sessionId step st0.clock],
            st0.clock + 1⟩, []))
    ∧ (∀ st2 : AgentState, ∀ aid : String, ∀ pa : PendingAction,
        findPending st2.pending sessionId aid = some pa → pa.action = step →
        ∀ f, lookupTool reg step.tool = some f →
        (approveAction reg st2 sessionId aid).2.2 = [⟨step.tool, step.input⟩]) := by
  refine ⟨?_, executePlan_trace true reg sessionId plan st, ?_, ?_, ?_⟩
  · rw [executePlan_results, List.getElem?_map, hstep]
    have hr : stepResult true reg step = pendingResult step.tool := by
      unfold stepResult; rw [if_pos (by simp [hga])]
    simp [hr]
  · unfold stepTrace; rw [if_pos (by simp [hga])]
  · intro st0 hfresh
    exact executePlanStep_gated reg sessionId st0 step hga hfresh
  · intro st2 aid pa hfind hact f hf
    unfold approveAction
    rw [hfind]
    simp only [executeTool, hact, hf]
    cases f step.input <;> rfl

/-- Witness for C1 over the `web_search` stub: the gated step's entry is
`pending_approval`, the stored record is created, and approving the
stored action id invokes the stored tool once. -/
theorem claim_C1_witness :
    (executePlan true demoRegistry "s" ⟨[], 0⟩ [demoGatedStep]).1[0]? =
      some (pendingResult "web_search")
    ∧ executePlanStep true demoRegistry "s" ⟨[], 0⟩ demoGatedStep =
        (pendingResult "web_search", ⟨[mkPendingAction "s" demoGatedStep 0], 1⟩, [])
    ∧ (approveAction demoRegistry ⟨[mkPendingAction "s" demoGatedStep 0], 1⟩ "s"
        (mkActionId "s" 0)).2.2 = [⟨"web_search", demoInput⟩] := by
  have h := claim_C1_approval_gating demoRegistry "s" ⟨[], 0⟩ [demoGatedStep] 0
    demoGatedStep rfl rfl
  exact ⟨h.1, h.2.2.2.1 ⟨[], 0⟩ rfl,
    h.2.2.2.2 ⟨[mkPendingAction "s" demoGatedStep 0], 1⟩ (mkActionId "s" 0)
      (mkPendingAction "s" demoGatedStep 0) rfl rfl webSearchExecute rfl⟩

/-- Counterexample to C4 as stated (unconditionally over the
human-approval flag): with `ENABLE_HUMAN_APPROVAL = False`, executing a
plan whose only step has `requires_approval=true` creates no
PendingAction at all while the tool side effect does occur. -/
theorem claim_C4_counterexample :
    demoGatedStep.requiresApproval = true
    ∧ (executePlan false demoRegistry "s" ⟨[], 0⟩ [demoGatedStep]).2.1.pending = []
    ∧ (executePlan false demoRegistry "s" ⟨[], 0⟩ [demoGatedStep]).2.2 =
        [⟨"web_search", demoInput⟩] :=
  ⟨rfl, rfl, rfl⟩

/-- Claim C4 (amended): when the human-approval flag is enabled,
executing a `requires_approval=true` step creates exactly one
PendingAction record (fresh key, status `pending`, carrying the step)
and produces no tool side effect for that step at all. -/
theorem claim_C4_amended (reg : Registry) (sid : String) (st0 : AgentState)
    (step : PlanStep) (hga : step.requiresApproval = true)
    (hfresh : st0.pending.any (fun r => r.sessionId == sid &&
      r.actionId == mkActionId sid st0.clock) = false) :
    ((executePlanStep true reg sid st0 step).2.1.pending.filter
        (fun r => r.sessionId == sid &&
          r.actionId == mkActionId sid st0.clock)).length = 1
    ∧ (executePlanStep true reg sid st0 step).2.2 = []
    ∧ (mkPendingAction sid step st0.clock).status = "pending"
    ∧ (mkPendingAction sid step st0.clock).action = step := by
  have h := executePlanStep_gated reg sid st0 step hga hfresh
  rw [h]
  refine ⟨?_, rfl, rfl, rfl⟩
  have h1 : st0.pending.filter (fun r => r.sessionId == sid &&
      r.actionId == mkActionId sid st0.clock) = [] := by
    rw [List.filter_eq_nil_iff]
    intro a ha
    have := List.any_eq_false.mp hfresh a ha
    simpa using this
  show ((st0.pending ++ [mkPendingAction sid step st0.clock]).filter _).length = 1
  rw [List.filter_append, h1]
  simp [mkPendingAction]

/-- Witness for the amended C4 at a concrete gated step. -/
theorem claim_C4_witness :
    ((executePlanStep true demoRegistry "s" ⟨[], 0⟩ demoGatedStep).2.1.pending.filter
        (fun r => r.sessionId == "s" && r.actionId == mkActionId "s" 0)).length = 1
    ∧ (executePlanStep true demoRegistry "s" ⟨[], 0⟩ demoGatedStep).2.2 = [] := by
  have h := claim_C4_amended demoRegistry "s" ⟨[], 0⟩ demoGatedStep rfl rfl
  exact ⟨h.1, h.2.1⟩

/-- `approve_action` on a missing key: error dict, untouched state, no
invocation. -/
theorem approveAction_notFound (reg : Registry) (st : AgentState) (sid aid : String)
    (hnone : findPending st.pending sid aid = none) :
    approveAction reg st sid aid =
      (Except.ok (Json.obj [("error", Json.str "Action not found")]), st, []) := by
  unfold approveAction
  rw [hnone]

/-- `approve_action` on a present key whose stored tool runs to a
result: the result is returned, the record is marked executed, and the
stored tool is invoked once. -/
theorem approveAction_found (reg : Registry) (st : AgentState) (sid aid : String)
    (pa : PendingAction) (f : ToolFun) (r : Json)
    (hfind : findPending st.pending sid aid = some pa)
    (hf : lookupTool reg pa.action.tool = some f)
    (hr : f pa.action.input = Except.ok r) :
    approveAction reg st sid aid =
      (Except.ok r, ⟨markExecuted st.pending sid aid st.clock, st.clock + 1⟩,
       [⟨pa.action.tool, pa.action.input⟩]) := by
  unfold approveAction
  rw [hfind]
  simp only [executeTool, hf, hr]

/-- The raw result the `web_search` stub returns on `demoInput`. -/
def demoSearchResult : Json :=
  Json.obj [("success", Json.bool true),
            ("results", Json.arr [Json.obj
              [("title", Json.str "Result for: q"),
               ("url", Json.str "https://example.com"),
               ("snippet", Json.str "Relevant information about the query...")]])]

/-- A state holding the pending action created for `demoGatedStep`. -/
def goodState : AgentState := ⟨[mkPendingAction "s" demoGatedStep 0], 5⟩

/-- Counterexample to C6 as stated: a PendingAction record exists for
`("s", "s-0")` but its stored tool name is unregistered, so
`approve_action` re-raises the registry's lookup error — it neither
marks the record executed nor returns a tool result, and the store is
unchanged with the record still `pending`. -/
theorem claim_C6_counterexample :
    findPending [orphanPending] "s" "s-0" = some orphanPending
    ∧ approveAction demoRegistry ⟨[orphanPending], 1⟩ "s" "s-0" =
        (Except.error "Tool nope not found", ⟨[orphanPending], 1⟩, [])
    ∧ orphanPending.status = "pending" :=
  ⟨rfl, rfl, rfl⟩

/-- Claim C6 (amended): an absent key yields the `Action not found`
error dict with no invocation and an unchanged store; a present key is
re-executed through the registry with the stored name and input, and —
provided that execution does not raise — the record is marked executed
with a timestamp and the raw tool result is returned; if it raises, the
exception propagates and the record stays as it was. -/
theorem claim_C6_amended (reg : Registry) (st : AgentState) (sid aid : String) :
    (findPending st.pending sid aid = none →
      approveAction reg st sid aid =
        (Except.ok (Json.obj [("error", Json.str "Action not found")]), st, []))
    ∧ (∀ pa, findPending st.pending sid aid = some pa →
        (∀ f r, lookupTool reg pa.action.tool = some f →
          f pa.action.input = Except.ok r →
          approveAction reg st sid aid =
            (Except.ok r, ⟨markExecuted st.pending sid aid st.clock, st.clock + 1⟩,
             [⟨pa.action.tool, pa.action.input⟩])
          ∧ (∀ pa2, findPending (markExecuted st.pending sid aid st.clock) sid aid =
                some pa2 →
              pa2.status = "executed" ∧ pa2.executedAt = some st.clock
              ∧ pa2.action = pa.action))
        ∧ (∀ e, (executeTool reg pa.action.tool pa.action.input).1 = Except.error e →
            approveAction reg st sid aid =
              (Except.error e, st, (executeTool reg pa.action.tool pa.action.input).2))) := by
  refine ⟨approveAction_notFound reg st sid aid, ?_⟩
  intro pa hfind
  constructor
  · intro f r hf hr
    refine ⟨approveAction_found reg st sid aid pa f r hfind hf hr, ?_⟩
    intro pa2 h2
    rw [findPending_markExecuted, hfind] at h2
    simp only [Option.map] at h2
    injection h2 with h2
    rw [← h2]
    exact ⟨rfl, rfl, rfl⟩
  · intro e he
    have hred : approveAction reg st sid aid =
        match executeTool reg pa.action.tool pa.action.input with
        | (Except.ok result, tr) =>
            (Except.ok result,
             ⟨markExecuted st.pending sid aid st.clock, st.clock + 1⟩, tr)
        | (Except.error e0, tr) => (Except.error e0, st, tr) := by
      unfold approveAction
      rw [hfind]
    rcases hE : executeTool reg pa.action.tool pa.action.input with ⟨r0, tr⟩
    rw [hE] at he
    simp only at he
    cases r0 with
    | ok v => exact absurd he (by simp)
    | error e2 =>
        have h3 : e2 = e := by injection he
        subst h3
        rw [hred, hE]

/-- Witness for the amended C6: the missing-key branch and the
successful re-execution branch at concrete inputs. -/
theorem claim_C6_witness :
    approveAction demoRegistry ⟨[], 0⟩ "s" "missing" =
      (Except.ok (Json.obj [("error", Json.str "Action not found")]), ⟨[], 0⟩, [])
    ∧ approveAction demoRegistry goodState "s" (mkActionId "s" 0) =
        (Except.ok demoSearchResult,
         ⟨markExecuted goodState.pending "s" (mkActionId "s" 0) 5, 6⟩,
         [⟨"web_search", demoInput⟩]) := by
  have h1 := claim_C6_amended demoRegistry ⟨[], 0⟩ "s" "missing"
  have h2 := claim_C6_amended demoRegistry goodState "s" (mkActionId "s" 0)
  exact ⟨h1.1 rfl,
    ((h2.2 (mkPendingAction "s" demoGatedStep 0) rfl).1 webSearchExecute
      demoSearchResult rfl rfl).1⟩

/-- Claim C9 (implicit): `approve_action` executes the stored action
whenever the record exists — its `status` field is never inspected (it
is arbitrary here) — and approving the same action id twice invokes the
underlying tool twice: the first approval merely marks the record
executed without removing it, so the second lookup finds it again and
re-executes it. -/
theorem claim_C9_reapproval (reg : Registry) (st : AgentState) (sid aid : String)
    (pa : PendingAction) (f : ToolFun) (r : Json)
    (hfind : findPending st.pending sid aid = some pa)
    (hf : lookupTool reg pa.action.tool = some f)
    (hr : f pa.action.input = Except.ok r) :
    (approveAction reg st sid aid).2.2 = [⟨pa.action.tool, pa.action.input⟩]
    ∧ ∃ pa2,
        findPending (approveAction reg st sid aid).2.1.pending sid aid = some pa2
        ∧ pa2.status = "executed" ∧ pa2.action = pa.action
        ∧ (approveAction reg (approveAction reg st sid aid).2.1 sid aid).2.2 =
            [⟨pa.action.tool, pa.action.input⟩] := by
  have hA := approveAction_found reg st sid aid pa f r hfind hf hr
  have hfind2 : findPending (markExecuted st.pending sid aid st.clock) sid aid =
      some { pa with status := "executed", executedAt := some st.clock } := by
    rw [findPending_markExecuted, hfind]
    rfl
  refine ⟨by rw [hA], ?_⟩
  refine ⟨{ pa with status := "executed", executedAt := some st.clock },
    by rw [hA]; exact hfind2, rfl, rfl, ?_⟩
  have hA2 := approveAction_found reg
    ⟨markExecuted st.pending sid aid st.clock, st.clock + 1⟩ sid aid
    { pa with status := "executed", executedAt := some st.clock } f r hfind2 hf hr
  rw [hA, hA2]

/-- Witness for C9: double approval of the stored `web_search` action
invokes the tool on both calls. -/
theorem claim_C9_witness :
    (approveAction demoRegistry goodState "s" (mkActionId "s" 0)).2.2 =
      [⟨"web_search", demoInput⟩]
    ∧ (approveAction demoRegistry
        (approveAction demoRegistry goodState "s" (mkActionId "s" 0)).2.1 "s"
        (mkActionId "s" 0)).2.2 = [⟨"web_search", demoInput⟩] := by
  have h := claim_C9_reapproval demoRegistry goodState "s" (mkActionId "s" 0)
    (mkPendingAction "s" demoGatedStep 0) webSearchExecute demoSearchResult rfl rfl rfl
  obtain ⟨h1, pa2, hfind2, hstat, hact, h2⟩ := h
  exact ⟨h1, h2⟩

instance : LawfulBEq StepStatus where
  eq_of_beq := by intro a b h; cases a <;> cases b <;> revert h <;> decide
  rfl := by intro a; cases a <;> rfl

/-- `process_message` in closed form: the narrated message and approval
flag come from `_generate_response` over the execution results, the
actions list is `_execute_plan`'s result list, and the store receives
the user and assistant messages around it. -/
theorem processMessage_eq (flag : Bool) (reg : Registry) (st : AgentState)
    (cs : DynConvStore) (message sid : String) (rtext : Json)
    (plan : List PlanStep) (narration : Option String) :
    processMessage flag reg st cs message sid rtext plan narration =
      (⟨(generateResponse narration (executePlan flag reg sid st plan).1).1, rtext,
        (executePlan flag reg sid st plan).1,
        (generateResponse narration (executePlan flag reg sid st plan).1).2, sid⟩,
       (executePlan flag reg sid st plan).2.1,
       dynAddMessage (dynAddMessage cs sid "user" message none) sid "assistant"
         (generateResponse narration (executePlan flag reg sid st plan).1).1 none,
       (executePlan flag reg sid st plan).2.2) := by
  unfold processMessage
  rcases hE : executePlan flag reg sid st plan with ⟨rs, st1, tr⟩
  rcases hG : generateResponse narration rs with ⟨m, b⟩
  simp [hE, hG]

/-- Counterexample to C3 as stated: a successfully processed message
whose narration model call raised (the handled `except` arm of
`_generate_response`) returns `requires_approval = false` although the
`actions_taken` list contains a `pending_approval` entry. -/
theorem claim_C3_counterexample :
    (processMessage true demoRegistry ⟨[], 0⟩ dynInit "msg" "s" (Json.str "r")
        [demoGatedStep] none).1.requiresApproval = false
    ∧ (processMessage true demoRegistry ⟨[], 0⟩ dynInit "msg" "s" (Json.str "r")
        [demoGatedStep] none).1.actionsTaken = [pendingResult "web_search"] :=
  ⟨rfl, rfl⟩

/-- Claim C3 (amended): provided the narration model call succeeds, the
`requires_approval` field of the structured response is true iff some
entry of `actions_taken` has status `pending_approval`; when the
narration call raises, the fallback hard-codes it to false. -/
theorem claim_C3_amended (flag : Bool) (reg : Registry) (st : AgentState)
    (cs : DynConvStore) (message sid : String) (rtext : Json)
    (plan : List PlanStep) (narration : Option String) :
    (∀ m, narration = some m →
      ((processMessage flag reg st cs message sid rtext plan
          narration).1.requiresApproval = true ↔
        ∃ r ∈ (processMessage flag reg st cs message sid rtext plan
          narration).1.actionsTaken, r.status = StepStatus.pendingApproval))
    ∧ (narration = none →
        (processMessage flag reg st cs message sid rtext plan
          narration).1.requiresApproval = false) := by
  constructor
  · intro m hm
    subst hm
    rw [processMessage_eq]
    simp only [generateResponse]
    rw [List.any_eq_true]
    constructor
    · rintro ⟨r, hr, hb⟩
      exact ⟨r, hr, by simpa using hb⟩
    · rintro ⟨r, hr, hb⟩
      exact ⟨r, hr, by simpa using hb⟩
  · intro hn
    subst hn
    rw [processMessage_eq]
    rfl

/-- Witness for the amended C3: with narration succeeding, a gated plan
yields `requires_approval = true`. -/
theorem claim_C3_witness :
    (processMessage true demoRegistry ⟨[], 0⟩ dynInit "msg" "s" (Json.str "r")
        [demoGatedStep] (some "ok")).1.requiresApproval = true := by
  have h := (claim_C3_amended true demoRegistry ⟨[], 0⟩ dynInit "msg" "s" (Json.str "r")
    [demoGatedStep] (some "ok")).1 "ok" rfl
  refine h.mpr ⟨pendingResult "web_search", ?_, rfl⟩
  have ha : (processMessage true demoRegistry ⟨[], 0⟩ dynInit "msg" "s" (Json.str "r")
      [demoGatedStep] (some "ok")).1.actionsTaken = [pendingResult "web_search"] := rfl
  rw [ha]
  simp

/-- Claim C7: `reason` always returns a `{reasoning, plan}` value — it
is total over the oracle outcomes, mirroring the method-wide `try` —
and both failure modes give an empty plan: a raised model call yields
the fixed fallback, and a response whose extracted span does not decode
to a JSON object yields the raw text as reasoning with an empty plan. -/
theorem claim_C7_reason_robust (query : String) (history : List Message)
    (availableTools : List ToolDefinition) (context : Option Json)
    (model : String → Option String) :
    (model (buildReasoningPrompt query history availableTools context) = none →
      reason query history availableTools context model =
        ⟨Json.str "Unable to complete reasoning due to an error", Json.arr []⟩)
    ∧ (∀ t, model (buildReasoningPrompt query history availableTools context) = some t →
        (∀ kvs, jsonLoads (extractJsonText t) ≠ some (Json.obj kvs)) →
        reason query history availableTools context model =
          ⟨Json.str t, Json.arr []⟩) := by
  constructor
  · intro h
    simp only [reason]
    rw [h]
  · intro t h hk
    simp only [reason]
    rw [h]
    cases hJ : jsonLoads (extractJsonText t) with
    | none => simp [parseReasoningOutput, hJ]
    | some v =>
        cases v <;> first
          | exact absurd hJ (hk _)
          | simp [parseReasoningOutput, hJ]

/-- Witness for C7: a raised model call and an undecodable response. -/
theorem claim_C7_witness :
    reason "q" [] [] none (fun _ => none) =
      ⟨Json.str "Unable to complete reasoning due to an error", Json.arr []⟩
    ∧ reason "q" [] [] none (fun _ => some "hello") =
      ⟨Json.str "hello", Json.arr []⟩ := by
  have h1 := claim_C7_reason_robust "q" [] [] none (fun _ => none)
  have h2 := claim_C7_reason_robust "q" [] [] none (fun _ => some "hello")
  refine ⟨h1.1 rfl, h2.2 "hello" rfl ?_⟩
  intro kvs hkv
  rw [show jsonLoads (extractJsonText "hello") = none from rfl] at hkv
  exact Option.noConfusion hkv

/-- The counterexample text for C2: two ```json fences; the first holds
garbage, the second holds a valid object. -/
def claim2Text : String :=
  "```json\nnot json\n```\n```json\n\x7b\"reasoning\": \"x\", \"plan\": []\x7d\n```"

/-- Counterexample to C2 as stated: `claim2Text` contains a fenced
```json block holding a valid JSON object, yet the parser returns the
raw-text fallback, because only the first json-tagged fence is ever
decoded. -/
theorem claim_C2_counterexample :
    pyContains claim2Text "```json\n\x7b\"reasoning\": \"x\", \"plan\": []\x7d\n```" = true
    ∧ jsonLoads "\x7b\"reasoning\": \"x\", \"plan\": []\x7d" =
        some (Json.obj [("reasoning", Json.str "x"), ("plan", Json.arr [])])
    ∧ parseReasoningOutput claim2Text = ⟨Json.str claim2Text, Json.arr []⟩
    ∧ Json.str claim2Text ≠ Json.str "x" := by
  refine ⟨rfl, rfl, rfl, ?_⟩
  intro h
  have h2 : claim2Text = "x" := by injection h
  exact absurd h2 (by decide)

/-- Claim C2 (amended): the parser decodes the single span selected by
the elif chain — the content of the first ```json fence, else of the
first ``` fence, else the first `\x7b` to the last `\x7d` — and returns
the decoded object's `reasoning`/`plan` (with defaults) when that span
is a JSON object; on any other outcome it returns the entire raw text
as reasoning with an empty plan, never raising; the concrete fenced
example decodes to reasoning "x" and an empty plan. -/
theorem claim_C2_amended (t : String) :
    (∀ kvs, jsonLoads (extractJsonText t) = some (Json.obj kvs) →
      parseReasoningOutput t =
        ⟨(lookupKV kvs "reasoning").getD (Json.str ""),
         (lookupKV kvs "plan").getD (Json.arr [])⟩)
    ∧ ((∀ kvs, jsonLoads (extractJsonText t) ≠ some (Json.obj kvs)) →
      parseReasoningOutput t = ⟨Json.str t, Json.arr []⟩)
    ∧ parseReasoningOutput "```json\n\x7b\"reasoning\": \"x\", \"plan\": []\x7d\n```" =
        ⟨Json.str "x", Json.arr []⟩ := by
  refine ⟨?_, ?_, rfl⟩
  · intro kvs h
    simp [parseReasoningOutput, h]
  · intro hk
    cases hJ : jsonLoads (extractJsonText t) with
    | none => simp [parseReasoningOutput, hJ]
    | some v =>
        cases v <;> first
          | exact absurd hJ (hk _)
          | simp [parseReasoningOutput, hJ]

/-- Witness for the amended C2 at a fenced valid object. -/
theorem claim_C2_witness :
    parseReasoningOutput "```json\n\x7b\"reasoning\": \"y\", \"plan\": []\x7d\n```" =
      ⟨Json.str "y", Json.arr []⟩ :=
  (claim_C2_amended "```json\n\x7b\"reasoning\": \"y\", \"plan\": []\x7d\n```").1
    [("reasoning", Json.str "y"), ("plan", Json.arr [])] rfl

/-- Counterexample to C8 as stated (for every limit): the in-memory
store's `messages[-limit:]` slice at `limit = 0` returns the whole
list — one message instead of `min(N, limit) = 0`. -/
theorem claim_C8_counterexample :
    memGetHistory (memAddMessage memInit "s" "user" "hello" none 0) "s" 0 =
      [⟨"user", "hello", 0, Json.obj []⟩]
    ∧ (memGetHistory (memAddMessage memInit "s" "user" "hello" none 0) "s" 0).length ≠
        min 1 ((0 : Int)).toNat :=
  ⟨rfl, by decide⟩

/-- Claim C8 (amended): for every positive limit, after any sequence of
`add_message` calls both stores return exactly the `min(N, limit)` most
recently inserted messages of the session, in insertion order (the
suffix of the session's own message sequence), and hence never a
message of another session. The durable store's timestamps come from
its monotone clock. -/
theorem claim_C8_amended (calls : List AddCall) (sid : String) (limit : Int)
    (h : 1 ≤ limit) :
    (memGetHistory (memApply memInit calls) sid limit =
       (msgsFor calls sid).drop ((msgsFor calls sid).length - limit.toNat)
     ∧ (memGetHistory (memApply memInit calls) sid limit).length =
         min (msgsFor calls sid).length limit.toNat)
    ∧ (dynGetHistory (dynApply dynInit calls) sid limit =
       ((dynRowsFor calls sid 0).map rowToMessage).drop
         ((dynRowsFor calls sid 0).length - limit.toNat)
     ∧ (dynGetHistory (dynApply dynInit calls) sid limit).length =
         min (dynRowsFor calls sid 0).length limit.toNat) := by
  have hconv : (memApply memInit calls).conversations sid = msgsFor calls sid := by
    rw [memApply_conversations]
    rfl
  have hmem : memGetHistory (memApply memInit calls) sid limit =
      (msgsFor calls sid).drop ((msgsFor calls sid).length - limit.toNat) := by
    simp only [memGetHistory, hconv]
    by_cases he : (msgsFor calls sid).isEmpty
    · rw [if_pos he]
      rw [List.isEmpty_iff.mp he]
      simp
    · rw [if_neg he, pySliceFrom_neg _ _ h]
  have hd := dynApply_table calls dynInit (by intro s r hr; cases hr)
  have htab : (dynApply dynInit calls).table sid = dynRowsFor calls sid 0 := by
    rw [hd.1 sid]
    rfl
  have hdyn : dynGetHistory (dynApply dynInit calls) sid limit =
      ((dynRowsFor calls sid 0).map rowToMessage).drop
        ((dynRowsFor calls sid 0).length - limit.toNat) := by
    simp only [dynGetHistory]
    rw [if_neg (by omega), htab, reverse_take_reverse, List.map_drop]
  refine ⟨⟨hmem, ?_⟩, hdyn, ?_⟩
  · rw [hmem, List.length_drop]
    omega
  · rw [hdyn, List.length_drop, List.length_map]
    omega

/-- Witness for the amended C8: three adds interleaving two sessions,
limit 2, on both stores. -/
theorem claim_C8_witness :
    memGetHistory (memApply memInit
      [⟨"s", "user", "a", none, 0⟩, ⟨"t", "user", "b", none, 1⟩,
       ⟨"s", "assistant", "c", none, 2⟩]) "s" 2 =
      [⟨"user", "a", 0, Json.obj []⟩, ⟨"assistant", "c", 2, Json.obj []⟩]
    ∧ dynGetHistory (dynApply dynInit
      [⟨"s", "user", "a", none, 0⟩, ⟨"t", "user", "b", none, 1⟩,
       ⟨"s", "assistant", "c", none, 2⟩]) "s" 2 =
      [⟨"user", "a", 0, Json.obj []⟩, ⟨"assistant", "c", 2, Json.obj []⟩] := by
  have hc := claim_C8_amended
    [⟨"s", "user", "a", none, 0⟩, ⟨"t", "user", "b", none, 1⟩,
     ⟨"s", "assistant", "c", none, 2⟩] "s" 2 (by omega)
  exact ⟨hc.1.1, hc.2.1⟩

/-- Claim C10: each in-memory `add_message` leaves the session record in
place with `message_count` equal to the stored message count and
`last_activity` equal to the appended message's timestamp; the
session's previous messages survive as a prefix (only an append
happens) and every other session's messages and record are untouched. -/
theorem claim_C10_session_invariants (st : MemoryStore) (sid role content : String)
    (md : Option Json) (now : Nat) :
    (memAddMessage st sid role content md now).sessions sid =
      some ⟨now, ((memAddMessage st sid role content md now).conversations sid).length⟩
    ∧ (memAddMessage st sid role content md now).conversations sid =
        st.conversations sid ++ [⟨role, content, now, md.getD (Json.obj [])⟩]
    ∧ (∀ s, s ≠ sid →
        (memAddMessage st sid role content md now).conversations s =
          st.conversations s
        ∧ (memAddMessage st sid role content md now).sessions s = st.sessions s) := by
  refine ⟨by simp [memAddMessage], by simp [memAddMessage], ?_⟩
  intro s hs
  have hb : (s == sid) = false := by simp [hs]
  constructor <;> simp [memAddMessage, hb] <;>
    first
      | exact hs
      | exact fun hcontra => absurd hcontra hs

/-- Witness for C10 at a concrete call. -/
theorem claim_C10_witness :
    (memAddMessage memInit "s" "user" "hi" none 3).sessions "s" = some ⟨3, 1⟩
    ∧ (memAddMessage memInit "s" "user" "hi" none 3).conversations "other" = [] := by
  have h := claim_C10_session_invariants memInit "s" "user" "hi" none 3
  exact ⟨h.1, (h.2.2 "other" (by decide)).1⟩

end DevOpsAgent
